import Mathlib

/-!
Verification of the pipeline construction and process-orchestration engine of
`src/src/bin/vssh.rs`.

The Rust code is shallowly embedded:

* `&str` values are modelled as `List Char` (`Str`); Rust `str::trim`,
  `str::split`, `str::split_whitespace` and `str::contains` are re-implemented
  over `List Char` with the same semantics (`trim`, `splitChar`, `splitWs`,
  list membership).
* Panics (`unwrap`, slice indexing) and error returns are modelled with
  `Option` / explicit result fields: a `none` marks a run in which the Rust
  program panicked.
* The effectful pipeline phase (`execute_line`, lines 56-196) is modelled as a
  deterministic function of an abstract `World` that decides the outcome of
  every system call (`pipe`, `fork`, `File::open`, `File::create`, `execvp`,
  `waitpid`).  File descriptors are modelled symbolically: channel `j`'s read
  and write ends are `Fd.chanR j` / `Fd.chanW j`.
* The parent side of `execute_line` yields a `PipeRun` record (spawned
  handles, background reports, descriptors closed, waits issued, reports,
  an ordered event trace, overall outcome).  The child side of the `fork`
  match (lines 102-149) is modelled by `childRun`, which yields the ordered
  list of child events, ending in exactly one terminator: image replacement
  (`execE`), process exit (`exitE`), or an error return out of `execute_line`
  via the `?` operator (`retErrE`).
-/

set_option linter.unusedVariables false

namespace VSSH

/-- Rust `&str`, modelled as a list of characters. -/
abbrev Str := List Char

/-- Rust `str::trim`: drop leading and trailing whitespace. -/
def trim (s : Str) : Str :=
  ((s.dropWhile Char.isWhitespace).reverse.dropWhile Char.isWhitespace).reverse

/-- Helper for `splitChar`: returns the first part and the remaining parts of
splitting on `sep`. -/
def splitCharAux (sep : Char) : Str → Str × List Str
  | [] => ([], [])
  | c :: rest =>
    let r := splitCharAux sep rest
    if c = sep then ([], r.1 :: r.2) else (c :: r.1, r.2)

/-- Rust `str::split(sep)`: splitting always yields at least one part
(the empty string yields `[""]`). -/
def splitChar (sep : Char) (s : Str) : List Str :=
  (splitCharAux sep s).1 :: (splitCharAux sep s).2

/-- Helper for `splitWs`; `acc` holds the current token reversed. -/
def splitWsAux : Str → Str → List Str
  | [], acc => if acc.isEmpty then [] else [acc.reverse]
  | c :: rest, acc =>
    if c.isWhitespace then
      if acc.isEmpty then splitWsAux rest []
      else acc.reverse :: splitWsAux rest []
    else splitWsAux rest (c :: acc)

/-- Rust `str::split_whitespace`: split on runs of whitespace, producing no
empty tokens. -/
def splitWs (s : Str) : List Str := splitWsAux s []

/-- The NUL character, the one byte `CString::new` rejects. -/
def nulChar : Char := Char.ofNat 0

/-- `CString::new(s)` (line 202): fails exactly when the string contains a NUL
byte.  The Rust code calls `.unwrap()` on the result, so `none` models a
panic. -/
def cstring_new (t : Str) : Option Str :=
  if nulChar ∈ t then none else some t

/-- Rust `collect::<Result<Vec<_>, _>>`-style collection over `Option`:
the whole list succeeds only when every element does. -/
def mapOpt {α β : Type} (f : α → Option β) : List α → Option (List β)
  | [] => some []
  | a :: rest =>
    match f a, mapOpt f rest with
    | some b, some bs => some (b :: bs)
    | _, _ => none

/-- `externalize` (lines 199-204): whitespace-tokenize a segment and convert
each token with `CString::new(..).unwrap()`; `none` models the unwrap panic. -/
def externalize (seg : Str) : Option (List Str) :=
  mapOpt cstring_new (splitWs seg)

/-- Result of the parsing stage of `execute_line` (lines 56-78). -/
structure Parsed where
  segments : List Str
  input_file : Option Str
  output_file : Option Str
deriving DecidableEq, Repr

/-- `execute_line` either returns `Ok(())` early on an empty segment vector
(line 60, unreachable in fact) or produces a `Parsed` value. -/
inductive ParseOut
  | emptyReturn
  | parsed (p : Parsed)
deriving DecidableEq, Repr

/-- Input-redirection extraction (lines 63-69): if segment 0 contains `<`,
split it on `<`, trim the parts, replace segment 0 with part 0 and record
part 1 as the input file.  The Rust slice indexing `parts[0]` / `parts[1]`
panics when out of bounds, modelled by `none`. -/
def applyInputRedir (segs : List Str) : Option (List Str × Option Str) :=
  match segs with
  | [] => some ([], none)
  | s0 :: rest =>
    if '<' ∈ s0 then
      let parts := (splitChar '<' s0).map trim
      parts[0]?.bind fun p0 => parts[1]?.bind fun p1 =>
        some (p0 :: rest, some p1)
    else some (s0 :: rest, none)

/-- Output-redirection extraction (lines 71-78): same rule applied to the last
segment, using `>`, after the input redirection has already been applied. -/
def applyOutputRedir (segs : List Str) : Option (List Str × Option Str) :=
  let last := segs.length - 1
  segs[last]?.bind fun sl =>
    if '>' ∈ sl then
      let parts := (splitChar '>' sl).map trim
      parts[0]?.bind fun p0 => parts[1]?.bind fun p1 =>
        some (segs.set last p0, some p1)
    else some (segs, none)

/-- The parsing stage of `execute_line` (lines 56-78): split the line on `|`,
trim each segment, then extract the input and the output redirection, in that
order. -/
def parseStage (line : Str) : Option ParseOut :=
  let segments := (splitChar '|' line).map trim
  if segments.isEmpty then some ParseOut.emptyReturn
  else
    (applyInputRedir segments).bind fun s1 =>
      (applyOutputRedir s1.1).bind fun s2 =>
        some (ParseOut.parsed ⟨s2.1, s1.2, s2.2⟩)

/-- Tokenization of every segment (line 96 applied to each index). -/
def tokenizeAll (segs : List Str) : Option (List (List Str)) :=
  mapOpt externalize segs

/-- Parsing plus tokenization: everything `execute_line` does to the text of
the command line.  `none` models a panic somewhere in that stage. -/
inductive ParseTok
  | emptyReturn
  | full (p : Parsed) (argvs : List (List Str))
deriving DecidableEq, Repr

/-- The whole text-processing stage of `execute_line`: segment split, the two
redirection extractions, and `externalize` on every resulting segment. -/
def parseAndTokenize (line : Str) : Option ParseTok :=
  (parseStage line).bind fun po =>
    match po with
    | ParseOut.emptyReturn => some ParseTok.emptyReturn
    | ParseOut.parsed p =>
      (tokenizeAll p.segments).bind fun argvs => some (ParseTok.full p argvs)

/-- Symbolic file descriptors: the standard slots, the redirection files, and
the two ends of each channel (channel `j` is `pipes[j]` in the Rust code). -/
inductive Fd
  | stdin | stdout | infile | outfile
  | chanR (j : Nat) | chanW (j : Nat)
deriving DecidableEq, Repr

/-- `nix::sys::wait::WaitStatus`, restricted to the shape the code matches. -/
inductive WStatus
  | Exited (pid : Nat) (status : Int)
  | Signaled (pid : Nat) (signal : Nat) (coreDumped : Bool)
  | Stopped (pid : Nat) (signal : Nat)
  | Continued (pid : Nat)
  | StillAlive
  | Other
deriving DecidableEq, Repr

/-- The report the coordinator prints for one wait outcome (lines 171-191). -/
inductive Report
  | exitedR (pid : Nat) (status : Int)
  | signaledR (pid : Nat) (signal : Nat) (coreDumped : Bool)
  | continuedR (pid : Nat)
  | stoppedR (pid : Nat) (signal : Nat)
  | stillAliveR
deriving DecidableEq, Repr

/-- The `match status` of lines 171-191: the catch-all arm prints nothing. -/
def classify : WStatus → Option Report
  | WStatus.Exited p s => some (Report.exitedR p s)
  | WStatus.Signaled p sg c => some (Report.signaledR p sg c)
  | WStatus.Continued p => some (Report.continuedR p)
  | WStatus.Stopped p sg => some (Report.stoppedR p sg)
  | WStatus.StillAlive => some Report.stillAliveR
  | WStatus.Other => none

/-- Abstract outcome of every system call `execute_line` performs.  Spawned
processes are identified by their segment index. -/
structure World where
  pipeOk : Nat → Bool
  forkOk : Nat → Bool
  openOk : Str → Bool
  createOk : Str → Bool
  execOk : Nat → Bool
  waitRes : Nat → Option WStatus

/-- Result of the pipe-creation loop (lines 80-90): the channel indices
created in order, the descriptors closed before an error return (the code
closes none), and whether the loop completed. -/
structure AllocOut where
  created : List Nat
  closedOnErr : List Fd
  ok : Bool
deriving DecidableEq, Repr

/-- The pipe-creation loop body, creating channels `i0, i0+1, ...` while `k`
iterations remain.  On `libc::pipe` failure the code returns the error at once
(line 86), closing nothing. -/
def allocPipesGo (pipeOk : Nat → Bool) (i0 : Nat) : Nat → AllocOut
  | 0 => ⟨[], [], true⟩
  | k + 1 =>
    if pipeOk i0 then
      let r := allocPipesGo pipeOk (i0 + 1) k
      ⟨i0 :: r.created, r.closedOnErr, r.ok⟩
    else ⟨[], [], false⟩

/-- Lines 80-90: `for _ in 0..segments.len() - 1 { pipe(..) }`. -/
def allocPipes (nPipes : Nat) (pipeOk : Nat → Bool) : AllocOut :=
  allocPipesGo pipeOk 0 nPipes

/-- Events inside a forked child (lines 102-149), in program order. -/
inductive CEvent
  | dup2E (src : Fd) (dst : Fd)
  | closeE (f : Fd)
  | execE (argv : List Str)
  | exitE (code : Nat)
  | retErrE
deriving DecidableEq, Repr

/-- Lines 103-111: input redirection in the child when `i == 0`.  A failed
`File::open` hits the `?` operator, which returns the error out of
`execute_line` in the child. -/
def inRedir (i : Nat) (inf : Option Str) (w : World) : Except Unit (List CEvent) :=
  if i = 0 then
    match inf with
    | some f =>
      if w.openOk f then Except.ok [CEvent.dup2E Fd.infile Fd.stdin] else Except.error ()
    | none => Except.ok []
  else Except.ok []

/-- Lines 113-121: output redirection in the child when `i == n - 1`. -/
def outRedir (i n : Nat) (outf : Option Str) (w : World) : Except Unit (List CEvent) :=
  if i = n - 1 then
    match outf with
    | some f =>
      if w.createOk f then Except.ok [CEvent.dup2E Fd.outfile Fd.stdout] else Except.error ()
    | none => Except.ok []
  else Except.ok []

/-- The child branch of the `fork` match, lines 102-149, for segment `i` of
`n`, with `nPipes` channels in scope.  The event list ends in exactly one
terminator.  Note that on `execvp` failure the `?` on line 146 returns the
error out of `execute_line` (`retErrE`); the `std::process::exit(1)` on line
148 is unreachable. -/
def childRun (i n : Nat) (inf outf : Option Str) (nPipes : Nat)
    (argv : List Str) (w : World) : List CEvent :=
  match inRedir i inf w with
  | Except.error _ => [CEvent.retErrE]
  | Except.ok e1 =>
    match outRedir i n outf w with
    | Except.error _ => e1 ++ [CEvent.retErrE]
    | Except.ok e2 =>
      let e3 := if 0 < i then [CEvent.dup2E (Fd.chanR (i - 1)) Fd.stdin] else []
      let e4 := if i < n - 1 then [CEvent.dup2E (Fd.chanW i) Fd.stdout] else []
      let e5 := (List.range nPipes).flatMap
        (fun j => [CEvent.closeE (Fd.chanR j), CEvent.closeE (Fd.chanW j)])
      if w.execOk i then e1 ++ e2 ++ e3 ++ e4 ++ e5 ++ [CEvent.execE argv]
      else e1 ++ e2 ++ e3 ++ e4 ++ e5 ++ [CEvent.retErrE]

/-- The spawn loop on the parent side (lines 95-157): skip a segment whose
argument vector is empty (lines 97-99); otherwise fork.  `fork()?` failure
aborts `execute_line` immediately (the accumulated handles and background
reports of earlier iterations stand).  Returns (spawned handles, background
reports, completed-without-fork-failure). -/
def spawnLoopAux (forkOk : Nat → Bool) (background : Bool) :
    Nat → List (List Str) → List Nat × List Nat × Bool
  | _, [] => ([], [], true)
  | i, argv :: rest =>
    if argv.isEmpty then spawnLoopAux forkOk background (i + 1) rest
    else if forkOk i then
      let r := spawnLoopAux forkOk background (i + 1) rest
      (i :: r.1, (if background then i :: r.2.1 else r.2.1), r.2.2)
    else ([], [], false)

/-- The wait loop (lines 168-193): one blocking `waitpid` per stored handle,
in order.  `waitpid(..)?` failure aborts the loop at once: the failing handle
gets no report and no later handle is waited on.  Returns (handles waited on,
reports produced, completed-without-wait-failure). -/
def waitLoop (waitRes : Nat → Option WStatus) :
    List Nat → List Nat × List (Nat × Option Report) × Bool
  | [] => ([], [], true)
  | p :: ps =>
    match waitRes p with
    | none => ([p], [], false)
    | some st =>
      let r := waitLoop waitRes ps
      (p :: r.1, (p, classify st) :: r.2.1, r.2.2)

/-- Parent-side events of one `execute_line` run, in program order. -/
inductive PEvent
  | spawnE (i : Nat)
  | closeE (f : Fd)
  | waitE (p : Nat)
deriving DecidableEq, Repr

/-- How the modelled `execute_line` run ended. -/
inductive RunOutcome
  | ok | pipeCreationFailed | forkFailed | waitFailed
deriving DecidableEq, Repr

/-- Observable summary of the parent side of one `execute_line` run. -/
structure PipeRun where
  nSegments : Nat
  pipesRequested : Nat
  pipesCreated : List Nat
  spawned : List Nat
  bgReports : List Nat
  parentClosed : List Fd
  waited : List Nat
  reports : List (Nat × Option Report)
  trace : List PEvent
  outcome : RunOutcome
deriving DecidableEq, Repr

/-- Both descriptors of channel `j`, in the order the code closes them. -/
def pairFds (j : Nat) : List Fd := [Fd.chanR j, Fd.chanW j]

/-- The pipeline phase of `execute_line` (lines 80-195), given the already
tokenized argument vectors of the segments: create `n - 1` pipes (aborting on
failure before any fork), run the spawn loop, close every pipe descriptor in
the parent (lines 159-165), and, unless backgrounded, run the wait loop. -/
def runPipeline (argvs : List (List Str)) (background : Bool) (w : World) : PipeRun :=
  let n := argvs.length
  let a := allocPipes (n - 1) w.pipeOk
  if a.ok then
    let s := spawnLoopAux w.forkOk background 0 argvs
    if s.2.2 then
      let closes := a.created.flatMap pairFds
      if background then
        { nSegments := n, pipesRequested := n - 1, pipesCreated := a.created,
          spawned := s.1, bgReports := s.2.1, parentClosed := closes,
          waited := [], reports := [],
          trace := s.1.map PEvent.spawnE ++ closes.map PEvent.closeE,
          outcome := RunOutcome.ok }
      else
        let wl := waitLoop w.waitRes s.1
        { nSegments := n, pipesRequested := n - 1, pipesCreated := a.created,
          spawned := s.1, bgReports := s.2.1, parentClosed := closes,
          waited := wl.1, reports := wl.2.1,
          trace := s.1.map PEvent.spawnE ++ closes.map PEvent.closeE
            ++ wl.1.map PEvent.waitE,
          outcome := if wl.2.2 then RunOutcome.ok else RunOutcome.waitFailed }
    else
      { nSegments := n, pipesRequested := n - 1, pipesCreated := a.created,
        spawned := s.1, bgReports := s.2.1, parentClosed := [],
        waited := [], reports := [], trace := s.1.map PEvent.spawnE,
        outcome := RunOutcome.forkFailed }
  else
    { nSegments := n, pipesRequested := n - 1, pipesCreated := a.created,
      spawned := [], bgReports := [], parentClosed := [], waited := [],
      reports := [], trace := [], outcome := RunOutcome.pipeCreationFailed }

/-- A world in which every system call succeeds and every child exits 0. -/
def wAll : World :=
  ⟨fun _ => true, fun _ => true, fun _ => true, fun _ => true,
   fun _ => true, fun p => some (WStatus.Exited p 0)⟩

/-- A world in which `File::open` fails (the input file cannot be opened). -/
def wOpenFail : World := { wAll with openOk := fun _ => false }

/-- A world in which `File::create` fails (the output file cannot be made). -/
def wCreateFail : World := { wAll with createOk := fun _ => false }

/-- A world in which `execvp` fails (the program cannot be resolved). -/
def wExecFail : World := { wAll with execOk := fun _ => false }

/-- A world in which the wait on handle 0 fails and later waits succeed. -/
def wWaitFail0 : World :=
  { wAll with waitRes := fun p => if p = 0 then none else some (WStatus.Exited p 0) }

/-- A world in which the wait on handle 1 fails and other waits succeed. -/
def wWaitFail1 : World :=
  { wAll with waitRes := fun p => if p = 1 then none else some WStatus.StillAlive }

/-- A world in which creating channel 0 succeeds and creating channel 1
fails. -/
def wPipeFail1 : World := { wAll with pipeOk := fun j => decide (j = 0) }

/-! ### Lemmas about the string model -/

theorem splitCharAux_parts_length (sep : Char) (s : Str) :
    (splitCharAux sep s).2.length = s.count sep := by
  induction s with
  | nil => rfl
  | cons c rest ih =>
    simp only [splitCharAux, List.count_cons]
    by_cases h : c = sep
    · simp [h, ih]
    · simp [h, ih, beq_iff_eq]

theorem splitChar_length (sep : Char) (s : Str) :
    (splitChar sep s).length = s.count sep + 1 := by
  simp [splitChar, splitCharAux_parts_length]

theorem splitCharAux_chars (sep : Char) (s : Str) :
    (∀ c ∈ (splitCharAux sep s).1, c ∈ s) ∧
      ∀ p ∈ (splitCharAux sep s).2, ∀ c ∈ p, c ∈ s := by
  induction s with
  | nil => exact ⟨by simp [splitCharAux], by simp [splitCharAux]⟩
  | cons a rest ih =>
    constructor
    · intro c hc
      simp only [splitCharAux] at hc
      by_cases h : a = sep
      · simp [h] at hc
      · simp only [h, if_false, List.mem_cons] at hc
        rcases hc with rfl | hc
        · exact List.mem_cons_self _ _
        · exact List.mem_cons_of_mem _ (ih.1 c hc)
    · intro p hp c hc
      simp only [splitCharAux] at hp
      by_cases h : a = sep
      · simp only [h, if_true, List.mem_cons] at hp
        rcases hp with rfl | hp
        · exact List.mem_cons_of_mem _ (ih.1 c hc)
        · exact List.mem_cons_of_mem _ (ih.2 p hp c hc)
      · simp only [h, if_false] at hp
        exact List.mem_cons_of_mem _ (ih.2 p hp c hc)

theorem splitChar_chars {sep : Char} {s p : Str} (hp : p ∈ splitChar sep s)
    {c : Char} (hc : c ∈ p) : c ∈ s := by
  rcases List.mem_cons.mp hp with rfl | hp
  · exact (splitCharAux_chars sep s).1 c hc
  · exact (splitCharAux_chars sep s).2 p hp c hc

theorem trim_chars {s : Str} {c : Char} (h : c ∈ trim s) : c ∈ s := by
  unfold trim at h
  rw [List.mem_reverse] at h
  have h1 : c ∈ (s.dropWhile Char.isWhitespace).reverse :=
    List.Sublist.mem h (List.dropWhile_sublist _)
  rw [List.mem_reverse] at h1
  exact List.Sublist.mem h1 (List.dropWhile_sublist _)

theorem splitWsAux_chars :
    ∀ (s acc : Str), ∀ t ∈ splitWsAux s acc, ∀ c ∈ t, c ∈ s ∨ c ∈ acc := by
  intro s
  induction s with
  | nil =>
    intro acc t ht c hc
    simp only [splitWsAux] at ht
    split at ht
    · simp at ht
    · simp only [List.mem_singleton] at ht
      subst ht
      exact Or.inr (List.mem_reverse.mp hc)
  | cons a rest ih =>
    intro acc t ht c hc
    simp only [splitWsAux] at ht
    by_cases hw : a.isWhitespace
    · rw [if_pos hw] at ht
      by_cases he : acc.isEmpty
      · rw [if_pos he] at ht
        rcases ih [] t ht c hc with h | h
        · exact Or.inl (List.mem_cons_of_mem _ h)
        · simp at h
      · rw [if_neg he] at ht
        rcases List.mem_cons.mp ht with rfl | ht
        · exact Or.inr (List.mem_reverse.mp hc)
        · rcases ih [] t ht c hc with h | h
          · exact Or.inl (List.mem_cons_of_mem _ h)
          · simp at h
    · rw [if_neg hw] at ht
      rcases ih (a :: acc) t ht c hc with h | h
      · exact Or.inl (List.mem_cons_of_mem _ h)
      · rcases List.mem_cons.mp h with rfl | h
        · exact Or.inl (List.mem_cons_self _ _)
        · exact Or.inr h

theorem splitWs_chars {s t : Str} (ht : t ∈ splitWs s) {c : Char} (hc : c ∈ t) :
    c ∈ s := by
  rcases splitWsAux_chars s [] t ht c hc with h | h
  · exact h
  · simp at h

/-! ### Lemmas about `mapOpt` -/

theorem mapOpt_isSome {α β : Type} (f : α → Option β) :
    ∀ l : List α, (∀ a ∈ l, (f a).isSome = true) → (mapOpt f l).isSome = true := by
  intro l
  induction l with
  | nil => intro _; rfl
  | cons a rest ih =>
    intro h
    have ha := h a (List.mem_cons_self _ _)
    have hr := ih fun x hx => h x (List.mem_cons_of_mem _ hx)
    rcases Option.isSome_iff_exists.mp ha with ⟨b, hb⟩
    rcases Option.isSome_iff_exists.mp hr with ⟨bs, hbs⟩
    simp [mapOpt, hb, hbs]

theorem mapOpt_length {α β : Type} (f : α → Option β) :
    ∀ {l : List α} {l2 : List β}, mapOpt f l = some l2 → l2.length = l.length := by
  intro l
  induction l with
  | nil =>
    intro l2 h
    simp only [mapOpt, Option.some.injEq] at h
    subst h
    rfl
  | cons a rest ih =>
    intro l2 h
    simp only [mapOpt] at h
    cases hfa : f a with
    | none => rw [hfa] at h; exact absurd h (by simp)
    | some b =>
      rw [hfa] at h
      cases hrest : mapOpt f rest with
      | none => rw [hrest] at h; exact absurd h (by simp)
      | some bs =>
        rw [hrest] at h
        simp only [Option.some.injEq] at h
        subst h
        simp [ih hrest]

/-! ### Lemmas about the parsing stage -/

theorem exists_two_cons {α : Type} :
    ∀ l : List α, 2 ≤ l.length → ∃ a b r, l = a :: b :: r
  | [], h => by simp at h
  | [a], h => by simp at h
  | a :: b :: r, _ => ⟨a, b, r, rfl⟩

theorem applyInputRedir_spec (segs : List Str) :
    ∃ segs1 inf, applyInputRedir segs = some (segs1, inf)
      ∧ segs1.length = segs.length
      ∧ ∀ s ∈ segs1, ∀ c ∈ s, ∃ t ∈ segs, c ∈ t := by
  cases segs with
  | nil => exact ⟨[], none, rfl, rfl, by simp⟩
  | cons s0 rest =>
    by_cases h : '<' ∈ s0
    · have hcnt : 0 < s0.count '<' := List.count_pos_iff.mpr h
      have h2 : 2 ≤ ((splitChar '<' s0).map trim).length := by
        rw [List.length_map, splitChar_length]; omega
      obtain ⟨p0, p1, r, hl⟩ := exists_two_cons _ h2
      refine ⟨p0 :: rest, some p1, ?_, by simp, ?_⟩
      · simp [applyInputRedir, if_pos h, hl]
      · intro s hs c hc
        rcases List.mem_cons.mp hs with rfl | hs
        · have hp0 : s ∈ (splitChar '<' s0).map trim := by
            rw [hl]; exact List.mem_cons_self _ _
          rcases List.mem_map.mp hp0 with ⟨q, hq, rfl⟩
          exact ⟨s0, List.mem_cons_self _ _, splitChar_chars hq (trim_chars hc)⟩
        · exact ⟨s, List.mem_cons_of_mem _ hs, hc⟩
    · exact ⟨s0 :: rest, none, by simp [applyInputRedir, h], rfl,
        fun s hs c hc => ⟨s, hs, hc⟩⟩

theorem applyOutputRedir_spec (segs : List Str) (hne : segs ≠ []) :
    ∃ segs2 outf, applyOutputRedir segs = some (segs2, outf)
      ∧ segs2.length = segs.length
      ∧ ∀ s ∈ segs2, ∀ c ∈ s, ∃ t ∈ segs, c ∈ t := by
  have hpos : 0 < segs.length := List.length_pos.mpr hne
  have hlt : segs.length - 1 < segs.length := by omega
  obtain ⟨sl, hsl⟩ : ∃ sl, segs[segs.length - 1]? = some sl :=
    ⟨segs.get ⟨segs.length - 1, hlt⟩, by simp⟩
  by_cases h : '>' ∈ sl
  · have hcnt : 0 < sl.count '>' := List.count_pos_iff.mpr h
    have h2 : 2 ≤ ((splitChar '>' sl).map trim).length := by
      rw [List.length_map, splitChar_length]; omega
    obtain ⟨p0, p1, r, hl⟩ := exists_two_cons _ h2
    refine ⟨segs.set (segs.length - 1) p0, some p1, ?_, by simp, ?_⟩
    · simp only [applyOutputRedir]
      rw [hsl, Option.some_bind, if_pos h, hl]
      simp
    · intro s hs c hc
      rcases List.mem_or_eq_of_mem_set hs with hs | rfl
      · exact ⟨s, hs, hc⟩
      · have hp0 : s ∈ (splitChar '>' sl).map trim := by
          rw [hl]; exact List.mem_cons_self _ _
        rcases List.mem_map.mp hp0 with ⟨q, hq, rfl⟩
        exact ⟨sl, List.getElem?_mem hsl, splitChar_chars hq (trim_chars hc)⟩
  · exact ⟨segs, none, by simp [applyOutputRedir, hsl, h],
      rfl, fun s hs c hc => ⟨s, hs, hc⟩⟩

theorem parseStage_spec (line : Str) :
    ∃ p : Parsed, parseStage line = some (ParseOut.parsed p)
      ∧ p.segments.length = line.count '|' + 1
      ∧ ∀ s ∈ p.segments, ∀ c ∈ s, c ∈ line := by
  obtain ⟨segs1, inf, h1, hlen1, hmem1⟩ :=
    applyInputRedir_spec ((splitChar '|' line).map trim)
  have hlen0 : ((splitChar '|' line).map trim).length = line.count '|' + 1 := by
    rw [List.length_map, splitChar_length]
  have hne1 : segs1 ≠ [] := by
    intro hn
    rw [hn, hlen0] at hlen1
    simp at hlen1
  obtain ⟨segs2, outf, h2, hlen2, hmem2⟩ := applyOutputRedir_spec segs1 hne1
  refine ⟨⟨segs2, inf, outf⟩, ?_, ?_, ?_⟩
  · simp only [parseStage]
    rw [if_neg (by simp [splitChar])]
    rw [h1, Option.some_bind, h2, Option.some_bind]
  · rw [hlen2, hlen1, hlen0]
  · intro s hs c hc
    obtain ⟨t, ht, htc⟩ := hmem2 s hs c hc
    obtain ⟨u, hu, huc⟩ := hmem1 t ht c htc
    rcases List.mem_map.mp hu with ⟨v, hv, rfl⟩
    exact splitChar_chars hv (trim_chars huc)

/-! ### Lemmas about the pipe allocator -/

theorem allocPipesGo_allok (f : Nat → Bool) (h : ∀ i, f i = true) :
    ∀ k i0, allocPipesGo f i0 k = ⟨(List.range k).map (i0 + ·), [], true⟩ := by
  intro k
  induction k with
  | zero => intro i0; rfl
  | succ k ih =>
    intro i0
    simp only [allocPipesGo, h i0, if_true, ih (i0 + 1)]
    have hl : i0 :: (List.range k).map (i0 + 1 + ·)
        = (List.range (k + 1)).map (i0 + ·) := by
      rw [List.range_succ_eq_map, List.map_cons, List.map_map, Nat.add_zero]
      apply congrArg
      exact List.map_congr_left fun a _ => by
        simp only [Function.comp_apply, Nat.succ_eq_add_one]
        omega
    rw [hl]

theorem allocPipes_allok (m : Nat) (f : Nat → Bool) (h : ∀ i, f i = true) :
    allocPipes m f = ⟨List.range m, [], true⟩ := by
  rw [allocPipes, allocPipesGo_allok f h]
  have : (List.range m).map (0 + ·) = List.range m := by
    have h0 := List.map_congr_left (l := List.range m)
      (f := (0 + ·)) (g := id) fun a _ => Nat.zero_add a
    rw [h0, List.map_id]
  rw [this]

theorem allocPipesGo_fail (f : Nat → Bool) :
    ∀ j i0 k, (∀ t, t < j → f (i0 + t) = true) → f (i0 + j) = false → j < k →
      allocPipesGo f i0 k = ⟨(List.range j).map (i0 + ·), [], false⟩ := by
  intro j
  induction j with
  | zero =>
    intro i0 k hb hf hk
    cases k with
    | zero => omega
    | succ k =>
      have hf0 : f i0 = false := by simpa using hf
      simp [allocPipesGo, hf0]
  | succ j ih =>
    intro i0 k hb hf hk
    cases k with
    | zero => omega
    | succ k =>
      have h0 : f i0 = true := by simpa using hb 0 (by omega)
      have hb1 : ∀ t, t < j → f (i0 + 1 + t) = true := by
        intro t ht
        have he : i0 + 1 + t = i0 + (t + 1) := by omega
        rw [he]
        exact hb (t + 1) (by omega)
      have hf1 : f (i0 + 1 + j) = false := by
        have he : i0 + 1 + j = i0 + (j + 1) := by omega
        rw [he]
        exact hf
      simp only [allocPipesGo, h0, if_true, ih (i0 + 1) k hb1 hf1 (by omega)]
      have hl : i0 :: (List.range j).map (i0 + 1 + ·)
          = (List.range (j + 1)).map (i0 + ·) := by
        rw [List.range_succ_eq_map, List.map_cons, List.map_map, Nat.add_zero]
        apply congrArg
        exact List.map_congr_left fun a _ => by
          simp only [Function.comp_apply, Nat.succ_eq_add_one]
          omega
      rw [hl]

theorem allocPipes_fail (m : Nat) (f : Nat → Bool) (j : Nat)
    (hb : ∀ t, t < j → f t = true) (hf : f j = false) (hj : j < m) :
    allocPipes m f = ⟨List.range j, [], false⟩ := by
  rw [allocPipes, allocPipesGo_fail f j 0 m (by simpa using hb) (by simpa using hf) hj]
  have : (List.range j).map (0 + ·) = List.range j := by
    have h0 := List.map_congr_left (l := List.range j)
      (f := (0 + ·)) (g := id) fun a _ => Nat.zero_add a
    rw [h0, List.map_id]
  rw [this]

/-! ### Lemmas about the spawn loop -/

theorem spawnLoopAux_mem_ge (f : Nat → Bool) (bg : Bool) :
    ∀ (l : List (List Str)) (i0 x : Nat),
      x ∈ (spawnLoopAux f bg i0 l).1 → i0 ≤ x := by
  intro l
  induction l with
  | nil => intro i0 x hx; simp [spawnLoopAux] at hx
  | cons a rest ih =>
    intro i0 x hx
    simp only [spawnLoopAux] at hx
    by_cases he : a.isEmpty
    · rw [if_pos he] at hx
      have := ih (i0 + 1) x hx
      omega
    · rw [if_neg he] at hx
      by_cases hf : f i0
      · rw [if_pos hf] at hx
        rcases List.mem_cons.mp hx with rfl | hx
        · omega
        · have := ih (i0 + 1) x hx
          omega
      · rw [if_neg hf] at hx
        simp at hx

theorem spawnLoopAux_sorted (f : Nat → Bool) (bg : Bool) :
    ∀ (l : List (List Str)) (i0 : Nat),
      ((spawnLoopAux f bg i0 l).1).Pairwise (· < ·) := by
  intro l
  induction l with
  | nil => intro i0; simp [spawnLoopAux]
  | cons a rest ih =>
    intro i0
    simp only [spawnLoopAux]
    by_cases he : a.isEmpty
    · rw [if_pos he]; exact ih (i0 + 1)
    · rw [if_neg he]
      by_cases hf : f i0
      · rw [if_pos hf]
        refine List.pairwise_cons.mpr ⟨?_, ih (i0 + 1)⟩
        intro x hx
        have := spawnLoopAux_mem_ge f bg rest (i0 + 1) x hx
        omega
      · rw [if_neg hf]; simp

theorem spawnLoopAux_not_mem_empty (f : Nat → Bool) (bg : Bool) :
    ∀ (l : List (List Str)) (i0 t : Nat), l[t]? = some [] →
      (i0 + t) ∉ (spawnLoopAux f bg i0 l).1 := by
  intro l
  induction l with
  | nil => intro i0 t ht; simp at ht
  | cons a rest ih =>
    intro i0 t ht hx
    simp only [spawnLoopAux] at hx
    cases t with
    | zero =>
      simp only [List.getElem?_cons_zero, Option.some.injEq] at ht
      subst ht
      rw [if_pos (by rfl)] at hx
      have := spawnLoopAux_mem_ge f bg rest (i0 + 1) _ hx
      omega
    | succ t =>
      simp only [List.getElem?_cons_succ] at ht
      have hne : (i0 + 1) + t = i0 + (t + 1) := by omega
      by_cases he : a.isEmpty
      · rw [if_pos he] at hx
        exact ih (i0 + 1) t ht (by rw [hne]; exact hx)
      · rw [if_neg he] at hx
        by_cases hf : f i0
        · rw [if_pos hf] at hx
          rcases List.mem_cons.mp hx with heq | hx
          · omega
          · exact ih (i0 + 1) t ht (by rw [hne]; exact hx)
        · rw [if_neg hf] at hx
          simp at hx

theorem spawnLoopAux_allok (f : Nat → Bool) (bg : Bool) (h : ∀ i, f i = true) :
    ∀ (l : List (List Str)) (i0 : Nat), (spawnLoopAux f bg i0 l).2.2 = true := by
  intro l
  induction l with
  | nil => intro i0; rfl
  | cons a rest ih =>
    intro i0
    simp only [spawnLoopAux]
    by_cases he : a.isEmpty
    · rw [if_pos he]; exact ih (i0 + 1)
    · rw [if_neg he, if_pos (h i0)]
      exact ih (i0 + 1)

theorem spawnLoopAux_bg_reports (f : Nat → Bool) :
    ∀ (l : List (List Str)) (i0 : Nat),
      (spawnLoopAux f true i0 l).2.1 = (spawnLoopAux f true i0 l).1 := by
  intro l
  induction l with
  | nil => intro i0; rfl
  | cons a rest ih =>
    intro i0
    simp only [spawnLoopAux]
    by_cases he : a.isEmpty
    · rw [if_pos he]; exact ih (i0 + 1)
    · rw [if_neg he]
      by_cases hf : f i0
      · rw [if_pos hf]
        simp [ih (i0 + 1)]
      · rw [if_neg hf]

/-! ### Lemmas about the wait loop -/

theorem waitLoop_all_some (wres : Nat → Option WStatus) (st : Nat → WStatus)
    (h : ∀ p, wres p = some (st p)) :
    ∀ ps : List Nat,
      waitLoop wres ps = (ps, ps.map (fun p => (p, classify (st p))), true) := by
  intro ps
  induction ps with
  | nil => rfl
  | cons p rest ih =>
    simp only [waitLoop, h p, ih, List.map_cons]

theorem waitLoop_fail_at (wres : Nat → Option WStatus) :
    ∀ (pre : List Nat) (p : Nat) (post : List Nat),
      (∀ q ∈ pre, (wres q).isSome = true) → wres p = none →
      (waitLoop wres (pre ++ p :: post)).1 = pre ++ [p]
      ∧ (waitLoop wres (pre ++ p :: post)).2.2 = false
      ∧ (waitLoop wres (pre ++ p :: post)).2.1.length = pre.length := by
  intro pre
  induction pre with
  | nil =>
    intro p post _ hf
    simp [waitLoop, hf]
  | cons q rest ih =>
    intro p post hok hf
    rcases Option.isSome_iff_exists.mp (hok q (List.mem_cons_self _ _)) with ⟨s, hs⟩
    have hr := ih p post (fun x hx => hok x (List.mem_cons_of_mem _ hx)) hf
    simp only [List.cons_append, waitLoop, hs, List.append_eq]
    exact ⟨by rw [hr.1], hr.2.1, by simp [hr.2.2]⟩

/-! ### Projection lemmas for `runPipeline` -/

theorem runPipeline_pipesRequested (argvs : List (List Str)) (bg : Bool) (w : World) :
    (runPipeline argvs bg w).pipesRequested = argvs.length - 1 := by
  unfold runPipeline
  dsimp only
  repeat' split
  all_goals rfl

theorem runPipeline_pipesCreated (argvs : List (List Str)) (bg : Bool) (w : World) :
    (runPipeline argvs bg w).pipesCreated
      = (allocPipes (argvs.length - 1) w.pipeOk).created := by
  unfold runPipeline
  dsimp only
  repeat' split
  all_goals rfl

theorem runPipeline_nSegments (argvs : List (List Str)) (bg : Bool) (w : World) :
    (runPipeline argvs bg w).nSegments = argvs.length := by
  unfold runPipeline
  dsimp only
  repeat' split
  all_goals rfl

/-! ### Shape lemmas for the child branch and the parent trace -/

theorem inRedir_ok_shape (i : Nat) (inf : Option Str) (w : World)
    (hopen : ∀ f, w.openOk f = true) :
    ∃ e1, inRedir i inf w = Except.ok e1
      ∧ ∀ e ∈ e1, ∃ s d, e = CEvent.dup2E s d := by
  unfold inRedir
  split
  · cases inf with
    | none => exact ⟨[], rfl, by simp⟩
    | some f =>
      dsimp only
      rw [if_pos (hopen f)]
      refine ⟨[CEvent.dup2E Fd.infile Fd.stdin], rfl, ?_⟩
      intro e he
      simp only [List.mem_singleton] at he
      subst he
      exact ⟨_, _, rfl⟩
  · exact ⟨[], rfl, by simp⟩

theorem outRedir_ok_shape (i n : Nat) (outf : Option Str) (w : World)
    (hcreate : ∀ f, w.createOk f = true) :
    ∃ e2, outRedir i n outf w = Except.ok e2
      ∧ ∀ e ∈ e2, ∃ s d, e = CEvent.dup2E s d := by
  unfold outRedir
  split
  · cases outf with
    | none => exact ⟨[], rfl, by simp⟩
    | some f =>
      dsimp only
      rw [if_pos (hcreate f)]
      refine ⟨[CEvent.dup2E Fd.outfile Fd.stdout], rfl, ?_⟩
      intro e he
      simp only [List.mem_singleton] at he
      subst he
      exact ⟨_, _, rfl⟩
  · exact ⟨[], rfl, by simp⟩

/-- The close events a child emits for the channel set (lines 137-143). -/
theorem childRun_shape (i n : Nat) (inf outf : Option Str) (np : Nat)
    (argv : List Str) (w : World)
    (hopen : ∀ f, w.openOk f = true) (hcreate : ∀ f, w.createOk f = true)
    (hexec : w.execOk i = true) :
    ∃ pre : List CEvent,
      childRun i n inf outf np argv w
        = pre ++ ((List.range np).flatMap
            (fun j => [CEvent.closeE (Fd.chanR j), CEvent.closeE (Fd.chanW j)]))
          ++ [CEvent.execE argv]
      ∧ ∀ e ∈ pre, ∃ s d, e = CEvent.dup2E s d := by
  obtain ⟨e1, he1, hd1⟩ := inRedir_ok_shape i inf w hopen
  obtain ⟨e2, he2, hd2⟩ := outRedir_ok_shape i n outf w hcreate
  refine ⟨e1 ++ e2
      ++ (if 0 < i then [CEvent.dup2E (Fd.chanR (i - 1)) Fd.stdin] else [])
      ++ (if i < n - 1 then [CEvent.dup2E (Fd.chanW i) Fd.stdout] else []),
    ?_, ?_⟩
  · simp only [childRun, he1, he2]
    rw [if_pos hexec]
    try simp [List.append_assoc]
  · intro e he
    simp only [List.mem_append] at he
    rcases he with ((he | he) | he) | he
    · exact hd1 e he
    · exact hd2 e he
    · split at he
      · simp only [List.mem_singleton] at he
        subst he
        exact ⟨_, _, rfl⟩
      · simp at he
    · split at he
      · simp only [List.mem_singleton] at he
        subst he
        exact ⟨_, _, rfl⟩
      · simp at he

theorem count_closeE_pairs_r (l : List Nat) (j : Nat) :
    (l.flatMap (fun t => [CEvent.closeE (Fd.chanR t), CEvent.closeE (Fd.chanW t)])).count
      (CEvent.closeE (Fd.chanR j)) = l.count j := by
  induction l with
  | nil => rfl
  | cons m rest ih =>
    simp only [List.flatMap_cons, List.count_append, ih, List.count_cons,
      List.count_nil]
    by_cases h : m = j
    · subst h
      simp
      omega
    · simp [h]

theorem count_closeE_pairs_w (l : List Nat) (j : Nat) :
    (l.flatMap (fun t => [CEvent.closeE (Fd.chanR t), CEvent.closeE (Fd.chanW t)])).count
      (CEvent.closeE (Fd.chanW j)) = l.count j := by
  induction l with
  | nil => rfl
  | cons m rest ih =>
    simp only [List.flatMap_cons, List.count_append, ih, List.count_cons,
      List.count_nil]
    by_cases h : m = j
    · subst h
      simp
      omega
    · simp [h]

theorem count_pairFds_r (l : List Nat) (j : Nat) :
    (l.flatMap pairFds).count (Fd.chanR j) = l.count j := by
  induction l with
  | nil => rfl
  | cons m rest ih =>
    simp only [pairFds, List.flatMap_cons, List.count_append, ih, List.count_cons,
      List.count_nil]
    by_cases h : m = j
    · subst h
      simp
      omega
    · simp [h]

theorem count_pairFds_w (l : List Nat) (j : Nat) :
    (l.flatMap pairFds).count (Fd.chanW j) = l.count j := by
  induction l with
  | nil => rfl
  | cons m rest ih =>
    simp only [pairFds, List.flatMap_cons, List.count_append, ih, List.count_cons,
      List.count_nil]
    by_cases h : m = j
    · subst h
      simp
      omega
    · simp [h]

theorem count_closeE_of_dups {pre : List CEvent}
    (hd : ∀ e ∈ pre, ∃ s d, e = CEvent.dup2E s d) (f : Fd) :
    pre.count (CEvent.closeE f) = 0 := by
  apply List.count_eq_zero.mpr
  intro hmem
  rcases hd _ hmem with ⟨s, d, he⟩
  simp at he

theorem count_range_one {j m : Nat} (hj : j < m) : (List.range m).count j = 1 :=
  List.count_eq_one_of_mem (List.nodup_range m) (List.mem_range.mpr hj)

theorem spawn_before_close_in_trace (sp : List Nat) (T : List PEvent)
    (hT : ∀ e ∈ T, ∀ i, e ≠ PEvent.spawnE i) :
    ∀ (a b i : Nat) (f : Fd),
      (sp.map PEvent.spawnE ++ T)[a]? = some (PEvent.spawnE i) →
      (sp.map PEvent.spawnE ++ T)[b]? = some (PEvent.closeE f) → a < b := by
  intro a b i f hsp hcl
  have ha : a < (sp.map PEvent.spawnE).length := by
    by_contra hge
    push_neg at hge
    rw [List.getElem?_append_right hge] at hsp
    exact hT _ (List.getElem?_mem hsp) i rfl
  have hb : (sp.map PEvent.spawnE).length ≤ b := by
    by_contra hlt
    push_neg at hlt
    rw [List.getElem?_append_left hlt] at hcl
    rcases List.mem_map.mp (List.getElem?_mem hcl) with ⟨x, _, hx⟩
    simp at hx
  omega

theorem close_before_exec_in_child (pre2 : List CEvent) (argv : List Str)
    (hpre : ∀ e ∈ pre2, ∀ a2, e ≠ CEvent.execE a2) :
    ∀ (a b : Nat) (f : Fd) (a2 : List Str),
      (pre2 ++ [CEvent.execE argv])[a]? = some (CEvent.closeE f) →
      (pre2 ++ [CEvent.execE argv])[b]? = some (CEvent.execE a2) → a < b := by
  intro a b f a2 hc he
  have ha : a < pre2.length := by
    by_contra hge
    push_neg at hge
    rw [List.getElem?_append_right hge] at hc
    have hmem := List.getElem?_mem hc
    simp at hmem
  have hb : pre2.length ≤ b := by
    by_contra hlt
    push_neg at hlt
    rw [List.getElem?_append_left hlt] at he
    exact hpre _ (List.getElem?_mem he) a2 rfl
  omega

/-- On an all-successful run, the parent closes exactly the descriptors of the
`n − 1` created channels, after the spawn loop, and the trace decomposes as
spawn events, then close events, then wait events. -/
theorem runPipeline_allok_shape (argvs : List (List Str)) (bg : Bool) (w : World)
    (hpipe : ∀ i, w.pipeOk i = true) (hfork : ∀ i, w.forkOk i = true) :
    (runPipeline argvs bg w).parentClosed
        = (List.range (argvs.length - 1)).flatMap pairFds
    ∧ (runPipeline argvs bg w).spawned = (spawnLoopAux w.forkOk bg 0 argvs).1
    ∧ ∃ T, (runPipeline argvs bg w).trace
        = (spawnLoopAux w.forkOk bg 0 argvs).1.map PEvent.spawnE
          ++ (((List.range (argvs.length - 1)).flatMap pairFds).map PEvent.closeE ++ T)
        ∧ ∀ e ∈ T, ∃ pp, e = PEvent.waitE pp := by
  have ha := allocPipes_allok (argvs.length - 1) w.pipeOk hpipe
  have hs := spawnLoopAux_allok w.forkOk bg hfork argvs 0
  unfold runPipeline
  dsimp only
  rw [ha]
  rw [if_pos rfl, if_pos hs]
  cases bg with
  | true =>
    refine ⟨rfl, rfl, [], ?_, by simp⟩
    simp
  | false =>
    refine ⟨rfl, rfl,
      (waitLoop w.waitRes (spawnLoopAux w.forkOk false 0 argvs).1).1.map PEvent.waitE,
      ?_, ?_⟩
    · simp
    · intro e he
      rcases List.mem_map.mp he with ⟨x, _, hx⟩
      exact ⟨x, hx.symm⟩

/-! ### Claim C1 -/

/-- Claim C1 (code-bug evaluation): on each child-side setup failure path —
input-file open failure, output-file create failure, or `execvp` failure —
the child's run ends in `retErrE`: the `?` operator returns the error out of
`execute_line` inside the forked child, which then resumes the interactive
prompt loop of `main`, instead of terminating with a nonzero exit status
(the `std::process::exit(1)` on line 148 is unreachable because the `?` on
line 146 returns first). -/
theorem c1_child_failure_returns_into_prompt_loop :
    childRun 0 1 (some "nofile.txt".toList) none 0 ["sort".toList] wOpenFail
      = [CEvent.retErrE]
    ∧ childRun 0 1 none (some "out.txt".toList) 0 ["sort".toList] wCreateFail
      = [CEvent.retErrE]
    ∧ childRun 0 1 none none 0 ["nosuchprogram".toList] wExecFail
      = [CEvent.retErrE]
    ∧ ∀ code : Nat, CEvent.retErrE ≠ CEvent.exitE code := by
  refine ⟨by decide, by decide, by decide, ?_⟩
  intro code h
  cases h

/-! ### Claim C2 -/

/-- Claim C2 (code-bug evaluation): for the one-segment line
`sort < input.txt > output.txt` the parser extracts
`input.txt > output.txt` — the whole text after the `<` — as the input-file
target and NO output-file target at all (the input split runs first and
consumes the `>` clause, and the rewritten segment `sort` no longer contains
`>`); the argument vector is `[sort]`. -/
theorem c2_single_segment_redirection_eval :
    parseAndTokenize "sort < input.txt > output.txt".toList
      = some (ParseTok.full
          { segments := ["sort".toList],
            input_file := some "input.txt > output.txt".toList,
            output_file := none }
          [["sort".toList]]) := by
  decide

/-! ### Claim C3 -/

/-- Claim C3 counterexample: with two spawned handles and a wait failure on
handle 0, handle 1 is spawned but never waited on, and not even handle 0 gets
a report — the wait loop aborts, refuting the claim that waiting continues on
the remaining handles. -/
theorem c3_wait_failure_counterexample :
    (runPipeline [[['a']], [['b']]] false wWaitFail0).spawned = [0, 1]
    ∧ (runPipeline [[['a']], [['b']]] false wWaitFail0).waited = [0]
    ∧ 1 ∉ (runPipeline [[['a']], [['b']]] false wWaitFail0).waited
    ∧ (runPipeline [[['a']], [['b']]] false wWaitFail0).reports = []
    ∧ (runPipeline [[['a']], [['b']]] false wWaitFail0).outcome
        = RunOutcome.waitFailed := by
  decide

/-- Claim C3 amended: a failed wait aborts the coordinator's wait loop: the
wait is issued for every handle up to and including the failing one, the
failing handle gets no report, and no later handle is waited on. -/
theorem c3_wait_failure_aborts (wres : Nat → Option WStatus)
    (pre : List Nat) (p : Nat) (post : List Nat)
    (hok : ∀ q ∈ pre, (wres q).isSome = true) (hfail : wres p = none) :
    (waitLoop wres (pre ++ p :: post)).1 = pre ++ [p]
    ∧ (waitLoop wres (pre ++ p :: post)).2.2 = false
    ∧ (waitLoop wres (pre ++ p :: post)).2.1.length = pre.length :=
  waitLoop_fail_at wres pre p post hok hfail

/-- Witness for the amended C3 at handles `[0, 1, 2]` with the wait on handle
1 failing. -/
theorem c3_wait_failure_aborts_witness :
    (waitLoop wWaitFail1.waitRes ([0] ++ 1 :: [2])).1 = [0] ++ [1]
    ∧ (waitLoop wWaitFail1.waitRes ([0] ++ 1 :: [2])).2.2 = false
    ∧ (waitLoop wWaitFail1.waitRes ([0] ++ 1 :: [2])).2.1.length = [0].length :=
  c3_wait_failure_aborts wWaitFail1.waitRes [0] 1 [2] (by decide) (by decide)

/-! ### Claim C4 -/

/-- Claim C4 counterexample: with channel 0 created and channel 1 failing, the
setup aborts before any spawn, but channel 0's two descriptors are NOT closed
before the error is returned: the loop on lines 82-90 returns the error
without releasing anything, refuting the release part of the claim. -/
theorem c4_pipe_failure_counterexample :
    (allocPipes 2 wPipeFail1.pipeOk).ok = false
    ∧ (allocPipes 2 wPipeFail1.pipeOk).created = [0]
    ∧ (allocPipes 2 wPipeFail1.pipeOk).closedOnErr = []
    ∧ Fd.chanR 0 ∉ (allocPipes 2 wPipeFail1.pipeOk).closedOnErr
    ∧ Fd.chanW 0 ∉ (allocPipes 2 wPipeFail1.pipeOk).closedOnErr
    ∧ (runPipeline [[['a']], [['b']], [['c']]] false wPipeFail1).outcome
        = RunOutcome.pipeCreationFailed
    ∧ (runPipeline [[['a']], [['b']], [['c']]] false wPipeFail1).spawned = [] := by
  decide

/-- Claim C4 amended: if creating one of the n−1 pipes fails, the whole setup
aborts with a pipe-creation error before any process is spawned, but the
channels already created are NOT released — the code returns the error
without closing any descriptor. -/
theorem c4_pipe_failure_aborts_without_release (argvs : List (List Str))
    (bg : Bool) (w : World) (j : Nat) (hj : j < argvs.length - 1)
    (hb : ∀ t, t < j → w.pipeOk t = true) (hf : w.pipeOk j = false) :
    (runPipeline argvs bg w).outcome = RunOutcome.pipeCreationFailed
    ∧ (runPipeline argvs bg w).spawned = []
    ∧ (runPipeline argvs bg w).trace = []
    ∧ (runPipeline argvs bg w).pipesCreated = List.range j
    ∧ (allocPipes (argvs.length - 1) w.pipeOk).closedOnErr = [] := by
  have ha := allocPipes_fail (argvs.length - 1) w.pipeOk j hb hf hj
  unfold runPipeline
  dsimp only
  rw [ha]
  simp

/-- Witness for the amended C4: three segments, channel 1 fails. -/
theorem c4_pipe_failure_witness :
    (runPipeline [[['a']], [['b']], [['c']]] true wPipeFail1).outcome
        = RunOutcome.pipeCreationFailed
    ∧ (runPipeline [[['a']], [['b']], [['c']]] true wPipeFail1).spawned = []
    ∧ (runPipeline [[['a']], [['b']], [['c']]] true wPipeFail1).trace = []
    ∧ (runPipeline [[['a']], [['b']], [['c']]] true wPipeFail1).pipesCreated
        = List.range 1
    ∧ (allocPipes ([[['a']], [['b']], [['c']]].length - 1)
        wPipeFail1.pipeOk).closedOnErr = [] :=
  c4_pipe_failure_aborts_without_release [[['a']], [['b']], [['c']]] true
    wPipeFail1 1 (by decide)
    (by
      intro t ht
      have h0 : t = 0 := by omega
      subst h0
      decide)
    (by decide)

/-! ### Claim C6 -/

/-- Claim C6: for every command line containing k pipe separators, parsing
produces exactly k+1 segments, the count is unchanged by stripping the input
and output redirections, and the pipeline phase requests exactly k channels
and, when pipe creation succeeds, allocates exactly k channels. -/
theorem c6_segment_and_channel_counts (line : Str) (bg : Bool) :
    ((splitChar '|' line).map trim).length = line.count '|' + 1
    ∧ (∀ p, parseStage line = some (ParseOut.parsed p) →
        p.segments.length = line.count '|' + 1)
    ∧ (∀ p argvs (w : World), parseStage line = some (ParseOut.parsed p) →
        tokenizeAll p.segments = some argvs →
        (runPipeline argvs bg w).pipesRequested = line.count '|'
        ∧ ((∀ i, w.pipeOk i = true) →
            (runPipeline argvs bg w).pipesCreated
              = List.range (line.count '|'))) := by
  obtain ⟨p0, hp0, hlen0, _⟩ := parseStage_spec line
  refine ⟨by rw [List.length_map, splitChar_length], ?_, ?_⟩
  · intro p hp
    rw [hp0] at hp
    injection hp with h
    injection h with h
    subst h
    exact hlen0
  · intro p argvs w hp ht
    rw [hp0] at hp
    injection hp with h
    injection h with h
    subst h
    have hargl : argvs.length = p0.segments.length := mapOpt_length externalize ht
    have hn : argvs.length = line.count '|' + 1 := by rw [hargl, hlen0]
    constructor
    · rw [runPipeline_pipesRequested, hn]
      omega
    · intro hpipe
      rw [runPipeline_pipesCreated, hn, allocPipes_allok _ _ hpipe]
      simp

/-- Witness for C6 at the concrete line `a | b`. -/
theorem c6_segment_and_channel_counts_witness :
    (runPipeline [[['a']], [['b']]] false wAll).pipesRequested
        = "a | b".toList.count '|'
    ∧ (runPipeline [[['a']], [['b']]] false wAll).pipesCreated
        = List.range ("a | b".toList.count '|') := by
  have h := (c6_segment_and_channel_counts "a | b".toList false).2.2
    ⟨[['a'], ['b']], none, none⟩ [[['a']], [['b']]] wAll (by decide) (by decide)
  exact ⟨h.1, h.2 fun i => rfl⟩

/-! ### Claim C8 -/

/-- Claim C8: for every backgrounded pipeline, `execute_line` returns without
issuing a single wait on any child handle, and the identifier of every handle
that was spawned is reported to the operator. -/
theorem c8_background_no_wait_reports_all (argvs : List (List Str)) (w : World) :
    (runPipeline argvs true w).waited = []
    ∧ (runPipeline argvs true w).bgReports = (runPipeline argvs true w).spawned := by
  unfold runPipeline
  dsimp only
  repeat' split
  all_goals simp_all [spawnLoopAux_bg_reports]

/-! ### Claim C10 -/

/-- Claim C10 counterexample: parsing does not always succeed — a line
consisting of a single NUL character makes `CString::new(..).unwrap()` in
`externalize` panic, refuting the claim that the parsing stage completes
without failure for every input line. -/
theorem c10_parse_failure_counterexample :
    parseAndTokenize [nulChar] = none := by
  decide

/-- Claim C10 amended: for every input line that contains no NUL character,
the parsing stage — segment split, input and output redirection extraction,
and whitespace tokenization of every segment — completes without failure:
no error, no out-of-bounds indexing, no failing conversion, even for
malformed redirection syntax such as `<` with no filename after it. -/
theorem c10_parse_total_without_nul (line : Str) (h : nulChar ∉ line) :
    (parseAndTokenize line).isSome = true := by
  obtain ⟨p, hp, _, hmem⟩ := parseStage_spec line
  have htok : (tokenizeAll p.segments).isSome = true := by
    simp only [tokenizeAll]
    apply mapOpt_isSome
    intro seg hseg
    simp only [externalize]
    apply mapOpt_isSome
    intro tok htokmem
    have hn : nulChar ∉ tok :=
      fun hnul => h (hmem seg hseg nulChar (splitWs_chars htokmem hnul))
    simp [cstring_new, hn]
  rcases Option.isSome_iff_exists.mp htok with ⟨argvs, ha⟩
  simp [parseAndTokenize, hp, ha]

/-- Witness for the amended C10: the malformed line `cat <` (a `<` with no
filename) still parses without failure. -/
theorem c10_parse_total_without_nul_witness :
    (parseAndTokenize "cat <".toList).isSome = true :=
  c10_parse_total_without_nul _ (by decide)

/-! ### Claim C5 -/

/-- Claim C5: on an all-successful run, every channel descriptor created by
the pipe allocator is closed exactly once in the parent, and only after all
children have been launched (every spawn event precedes every close event in
the parent trace); every spawned child closes both ends of every channel
exactly once, and every such close happens before the image replacement; no
channel descriptor remains open in the parent afterwards (both ends of every
created channel occur among the parent's closes). -/
theorem c5_descriptor_lifecycle (argvs : List (List Str)) (bg : Bool)
    (inf outf : Option Str) (w : World)
    (hpipe : ∀ i, w.pipeOk i = true) (hfork : ∀ i, w.forkOk i = true)
    (hopen : ∀ f, w.openOk f = true) (hcreate : ∀ f, w.createOk f = true)
    (hexec : ∀ i, w.execOk i = true) :
    (∀ j, j < argvs.length - 1 →
        (runPipeline argvs bg w).parentClosed.count (Fd.chanR j) = 1
      ∧ (runPipeline argvs bg w).parentClosed.count (Fd.chanW j) = 1)
    ∧ (∀ j ∈ (runPipeline argvs bg w).pipesCreated,
        Fd.chanR j ∈ (runPipeline argvs bg w).parentClosed
      ∧ Fd.chanW j ∈ (runPipeline argvs bg w).parentClosed)
    ∧ (∀ (a b i : Nat) (f : Fd),
        (runPipeline argvs bg w).trace[a]? = some (PEvent.spawnE i) →
        (runPipeline argvs bg w).trace[b]? = some (PEvent.closeE f) → a < b)
    ∧ (∀ i ∈ (runPipeline argvs bg w).spawned, ∀ j, j < argvs.length - 1 →
        (childRun i argvs.length inf outf (argvs.length - 1)
            (argvs.getD i []) w).count (CEvent.closeE (Fd.chanR j)) = 1
      ∧ (childRun i argvs.length inf outf (argvs.length - 1)
            (argvs.getD i []) w).count (CEvent.closeE (Fd.chanW j)) = 1)
    ∧ (∀ i ∈ (runPipeline argvs bg w).spawned,
        ∀ (a b : Nat) (f : Fd) (argv2 : List Str),
        (childRun i argvs.length inf outf (argvs.length - 1)
            (argvs.getD i []) w)[a]? = some (CEvent.closeE f) →
        (childRun i argvs.length inf outf (argvs.length - 1)
            (argvs.getD i []) w)[b]? = some (CEvent.execE argv2) → a < b) := by
  obtain ⟨hclosed, hspawned, T, htrace, hTwait⟩ :=
    runPipeline_allok_shape argvs bg w hpipe hfork
  have hcreated : (runPipeline argvs bg w).pipesCreated
      = List.range (argvs.length - 1) := by
    rw [runPipeline_pipesCreated, allocPipes_allok _ _ hpipe]
  refine ⟨?_, ?_, ?_, ?_, ?_⟩
  · intro j hj
    rw [hclosed]
    rw [count_pairFds_r, count_pairFds_w]
    exact ⟨count_range_one hj, count_range_one hj⟩
  · intro j hj
    rw [hcreated] at hj
    rw [hclosed]
    constructor
    · exact List.mem_flatMap_of_mem hj (by simp [pairFds])
    · exact List.mem_flatMap_of_mem hj (by simp [pairFds])
  · intro a b i f hsp hcl
    rw [htrace] at hsp hcl
    refine spawn_before_close_in_trace _ _ ?_ a b i f hsp hcl
    intro e he i2
    rcases List.mem_append.mp he with he | he
    · rcases List.mem_map.mp he with ⟨x, _, hx⟩
      subst hx
      simp
    · rcases hTwait e he with ⟨pp, hpp⟩
      subst hpp
      simp
  · intro i _ j hj
    obtain ⟨pre, hch, hd⟩ := childRun_shape i argvs.length inf outf
      (argvs.length - 1) (argvs.getD i []) w hopen hcreate (hexec i)
    rw [hch]
    constructor
    · rw [List.count_append, List.count_append,
        count_closeE_of_dups hd, count_closeE_pairs_r, count_range_one hj]
      simp
    · rw [List.count_append, List.count_append,
        count_closeE_of_dups hd, count_closeE_pairs_w, count_range_one hj]
      simp
  · intro i _ a b f argv2 hc he
    obtain ⟨pre, hch, hd⟩ := childRun_shape i argvs.length inf outf
      (argvs.length - 1) (argvs.getD i []) w hopen hcreate (hexec i)
    rw [hch] at hc he
    refine close_before_exec_in_child _ _ ?_ a b f argv2 hc he
    intro e heme a2
    rcases List.mem_append.mp heme with heme | heme
    · rcases hd e heme with ⟨s, d, hsd⟩
      subst hsd
      simp
    · rcases List.mem_flatMap.mp heme with ⟨t, _, hin⟩
      rcases List.mem_cons.mp hin with hin | hin
      · subst hin; simp
      · rcases List.mem_cons.mp hin with hin | hin
        · subst hin; simp
        · simp at hin

/-- Witness for C5 at a concrete two-segment pipeline in the all-successful
world. -/
theorem c5_descriptor_lifecycle_witness :
    (runPipeline [[['a']], [['b']]] false wAll).parentClosed.count (Fd.chanR 0) = 1
    ∧ (runPipeline [[['a']], [['b']]] false wAll).parentClosed.count (Fd.chanW 0) = 1 :=
  (c5_descriptor_lifecycle [[['a']], [['b']]] false none none wAll
    (fun _ => rfl) (fun _ => rfl) (fun _ => rfl) (fun _ => rfl) (fun _ => rfl)).1
    0 (by decide)

/-! ### Claim C7 -/

/-- Claim C7: for a foreground pipeline in which every fork and every wait
succeeds, the coordinator waits exactly once per spawned handle, in spawn
order (the spawned list is strictly increasing in segment index, so segment
0's handle comes first), and classifies each outcome as normal exit with
status, termination by signal with core-dump flag, stop by signal, or
continuation. -/
theorem c7_foreground_wait_coordination (argvs : List (List Str)) (w : World)
    (st : Nat → WStatus)
    (hpipe : ∀ i, w.pipeOk i = true) (hfork : ∀ i, w.forkOk i = true)
    (hw : ∀ p, w.waitRes p = some (st p)) :
    (runPipeline argvs false w).waited = (runPipeline argvs false w).spawned
    ∧ (runPipeline argvs false w).waited.length
        = (runPipeline argvs false w).spawned.length
    ∧ (runPipeline argvs false w).reports
        = (runPipeline argvs false w).spawned.map (fun p => (p, classify (st p)))
    ∧ (runPipeline argvs false w).spawned.Pairwise (fun p q => p < q)
    ∧ (runPipeline argvs false w).outcome = RunOutcome.ok
    ∧ (∀ p s, classify (WStatus.Exited p s) = some (Report.exitedR p s))
    ∧ (∀ p sg c, classify (WStatus.Signaled p sg c) = some (Report.signaledR p sg c))
    ∧ (∀ p sg, classify (WStatus.Stopped p sg) = some (Report.stoppedR p sg))
    ∧ (∀ p, classify (WStatus.Continued p) = some (Report.continuedR p)) := by
  have ha := allocPipes_allok (argvs.length - 1) w.pipeOk hpipe
  have hs := spawnLoopAux_allok w.forkOk false hfork argvs 0
  have hwl := waitLoop_all_some w.waitRes st hw (spawnLoopAux w.forkOk false 0 argvs).1
  have hsort := spawnLoopAux_sorted w.forkOk false argvs 0
  unfold runPipeline
  dsimp only
  rw [ha]
  rw [if_pos rfl, if_pos hs, if_neg (by simp)]
  rw [hwl]
  exact ⟨rfl, rfl, rfl, hsort, rfl,
    fun p s => rfl, fun p sg c => rfl, fun p sg => rfl, fun p => rfl⟩

/-- Witness for C7 at a concrete two-segment pipeline where every child exits
with status 0. -/
theorem c7_foreground_wait_coordination_witness :
    (runPipeline [[['a']], [['b']]] false wAll).waited
        = (runPipeline [[['a']], [['b']]] false wAll).spawned
    ∧ (runPipeline [[['a']], [['b']]] false wAll).reports
        = (runPipeline [[['a']], [['b']]] false wAll).spawned.map
            (fun p => (p, classify (WStatus.Exited p 0))) := by
  have h := c7_foreground_wait_coordination [[['a']], [['b']]] wAll
    (fun p => WStatus.Exited p 0) (fun _ => rfl) (fun _ => rfl) (fun _ => rfl)
  exact ⟨h.1, h.2.2.1⟩

/-! ### Claim C9 -/

/-- Claim C9: a segment whose tokenization is empty spawns no child, but still
occupies its position in the pipe topology: the number of requested channels
is computed from the full segment count, and any (non-empty) segment at index
j wires its standard input to the read end of channel j−1 (when j > 0) and
its standard output to the write end of channel j (when j < n−1), as a
function of its own index and the full length only. -/
theorem c9_empty_segment_topology (argvs : List (List Str)) (bg : Bool)
    (w : World) (i : Nat) (hi : argvs[i]? = some []) :
    i ∉ (runPipeline argvs bg w).spawned
    ∧ (runPipeline argvs bg w).pipesRequested = argvs.length - 1
    ∧ (∀ (j n np : Nat) (argv : List Str), 0 < j →
        CEvent.dup2E (Fd.chanR (j - 1)) Fd.stdin
          ∈ childRun j n none none np argv w)
    ∧ (∀ (j n np : Nat) (argv : List Str), j < n - 1 →
        CEvent.dup2E (Fd.chanW j) Fd.stdout
          ∈ childRun j n none none np argv w) := by
  refine ⟨?_, runPipeline_pipesRequested argvs bg w, ?_, ?_⟩
  · have hnot := spawnLoopAux_not_mem_empty w.forkOk bg argvs 0 i hi
    rw [Nat.zero_add] at hnot
    unfold runPipeline
    dsimp only
    repeat' split
    all_goals simp_all
  · intro j n np argv hj
    have h1 : inRedir j none w = Except.ok [] := by
      unfold inRedir
      split
      · rfl
      · rfl
    have h2 : outRedir j n none w = Except.ok [] := by
      unfold outRedir
      split
      · rfl
      · rfl
    simp only [childRun, h1, h2]
    rw [if_pos hj]
    by_cases he : w.execOk j
    · rw [if_pos he]
      simp
    · rw [if_neg he]
      simp
  · intro j n np argv hj
    have h1 : inRedir j none w = Except.ok [] := by
      unfold inRedir
      split
      · rfl
      · rfl
    have h2 : outRedir j n none w = Except.ok [] := by
      unfold outRedir
      split
      · rfl
      · rfl
    simp only [childRun, h1, h2]
    rw [if_pos hj]
    by_cases he : w.execOk j
    · rw [if_pos he]
      simp
    · rw [if_neg he]
      simp

/-- Witness for C9 at a three-segment pipeline whose middle segment is
empty. -/
theorem c9_empty_segment_topology_witness :
    1 ∉ (runPipeline [[['a']], [], [['b']]] false wAll).spawned
    ∧ (runPipeline [[['a']], [], [['b']]] false wAll).pipesRequested
        = [[['a']], [], [['b']]].length - 1 := by
  have h := c9_empty_segment_topology [[['a']], [], [['b']]] false wAll 1 (by decide)
  exact ⟨h.1, h.2.1⟩

end VSSH
